import Mathlib

set_option maxRecDepth 100000
set_option maxHeartbeats 1600000

/-!
Shallow embedding of the Reed–Solomon erasure coding core of this
repository (GF(2^8) tables, Vandermonde-style coding matrices,
Gauss–Jordan inversion, shard encoding and reconstruction), together
with theorems settling the specification claims.

The repository carries two near-identical implementations of the core:
one under `src/gf` + `src/rs` (stateless functions, Vandermonde x-values
r+1, parity recovery by re-encoding) and one under `src/algorithm` +
`src/codec` (a `Codec` object with an inverse-matrix cache, Vandermonde
x-values r+k, uniform recovery).  Both are embedded below; shared code
(the field table construction, `mul`, `inv`, Gauss–Jordan inversion) is
textually identical in the two trees and is embedded once.
-/

namespace RSE

/-- GF(2^8) table pair, as in `Gf256 { exp: Vec<u8>, log: Vec<i16> }`
(identical in `src/gf/gf256.rs` and `src/algorithm/gf256.rs`). -/
structure Gf256 where
  exp : List Nat
  log : List Int
deriving Repr, DecidableEq

/-- One iteration of the table-filling loop of `Gf256::new`:
`exp[i] = x as u8; log[x as usize] = i as i16; x <<= 1; if x & 0x100 != 0 { x ^= 0x11d }`.
The state is `(exp, log, x)` with `x : u16` kept below `2^16` explicitly. -/
def gfStep (st : List Nat × List Int × Nat) (i : Nat) : List Nat × List Int × Nat :=
  let e := st.1
  let l := st.2.1
  let x := st.2.2
  let e := e.set i (x % 256)
  let l := l.set x (Int.ofNat i)
  let x := (x * 2) % 65536
  let x := if x &&& 0x100 ≠ 0 then x ^^^ 0x11d else x
  (e, l, x)

/-- The table constructor `Gf256::new()`: `exp` of length 512 initialised to 0,
`log` of length 256 initialised to −1, the 255-step generator loop, then
`for i in 255..512 { exp[i] = exp[i - 255]; }`. -/
def Gf256.new : Gf256 :=
  let st := (List.range 255).foldl gfStep (List.replicate 512 0, List.replicate 256 (-1 : Int), 1)
  let exp := (List.range' 255 257).foldl (fun e i => e.set i (e.getD (i - 255) 0)) st.1
  ⟨exp, st.2.1⟩

/-- Field multiplication `Gf256::mul`: `0` when either operand is `0`,
otherwise `exp[(log[a] as i32 + log[b] as i32) as usize]`. -/
def Gf256.mul (gf : Gf256) (a b : Nat) : Nat :=
  if a = 0 ∨ b = 0 then 0
  else
    let la : Int := gf.log.getD a 0
    let lb : Int := gf.log.getD b 0
    gf.exp.getD (la + lb).toNat 0

/-- Field inversion `Gf256::inv`: error on `0`, otherwise
`exp[(255 - log[a] as i32) as usize]`. -/
def Gf256.inv (gf : Gf256) (a : Nat) : Except String Nat :=
  if a = 0 then .error "inverse of zero is undefined"
  else
    let la : Int := gf.log.getD a 0
    .ok (gf.exp.getD ((255 - la)).toNat 0)

/-- Per-coefficient multiplication table `Gf256::mul_table` of
`src/algorithm/gf256.rs`: the all-zero table for factor 0, otherwise
`table[i] = exp[(log[i] + log[factor]) as usize]` for `i > 0`. -/
def Gf256.mul_table (gf : Gf256) (factor : Nat) : List Nat :=
  if factor = 0 then List.replicate 256 0
  else
    let logFactor : Int := gf.log.getD factor 0
    (List.range 256).map (fun i =>
      if 0 < i then gf.exp.getD ((gf.log.getD i 0) + logFactor).toNat 0 else 0)


/-- Literal copy of the computed exponent table (for fast kernel evaluation in proofs). -/
def expTable : List Nat := [
  1, 2, 4, 8, 16, 32, 64, 128, 29, 58, 116, 232, 205, 135, 19, 38, 76, 152, 45, 90,
  180, 117, 234, 201, 143, 3, 6, 12, 24, 48, 96, 192, 157, 39, 78, 156, 37, 74, 148, 53,
  106, 212, 181, 119, 238, 193, 159, 35, 70, 140, 5, 10, 20, 40, 80, 160, 93, 186, 105, 210,
  185, 111, 222, 161, 95, 190, 97, 194, 153, 47, 94, 188, 101, 202, 137, 15, 30, 60, 120, 240,
  253, 231, 211, 187, 107, 214, 177, 127, 254, 225, 223, 163, 91, 182, 113, 226, 217, 175, 67, 134,
  17, 34, 68, 136, 13, 26, 52, 104, 208, 189, 103, 206, 129, 31, 62, 124, 248, 237, 199, 147,
  59, 118, 236, 197, 151, 51, 102, 204, 133, 23, 46, 92, 184, 109, 218, 169, 79, 158, 33, 66,
  132, 21, 42, 84, 168, 77, 154, 41, 82, 164, 85, 170, 73, 146, 57, 114, 228, 213, 183, 115,
  230, 209, 191, 99, 198, 145, 63, 126, 252, 229, 215, 179, 123, 246, 241, 255, 227, 219, 171, 75,
  150, 49, 98, 196, 149, 55, 110, 220, 165, 87, 174, 65, 130, 25, 50, 100, 200, 141, 7, 14,
  28, 56, 112, 224, 221, 167, 83, 166, 81, 162, 89, 178, 121, 242, 249, 239, 195, 155, 43, 86,
  172, 69, 138, 9, 18, 36, 72, 144, 61, 122, 244, 245, 247, 243, 251, 235, 203, 139, 11, 22,
  44, 88, 176, 125, 250, 233, 207, 131, 27, 54, 108, 216, 173, 71, 142, 1, 2, 4, 8, 16,
  32, 64, 128, 29, 58, 116, 232, 205, 135, 19, 38, 76, 152, 45, 90, 180, 117, 234, 201, 143,
  3, 6, 12, 24, 48, 96, 192, 157, 39, 78, 156, 37, 74, 148, 53, 106, 212, 181, 119, 238,
  193, 159, 35, 70, 140, 5, 10, 20, 40, 80, 160, 93, 186, 105, 210, 185, 111, 222, 161, 95,
  190, 97, 194, 153, 47, 94, 188, 101, 202, 137, 15, 30, 60, 120, 240, 253, 231, 211, 187, 107,
  214, 177, 127, 254, 225, 223, 163, 91, 182, 113, 226, 217, 175, 67, 134, 17, 34, 68, 136, 13,
  26, 52, 104, 208, 189, 103, 206, 129, 31, 62, 124, 248, 237, 199, 147, 59, 118, 236, 197, 151,
  51, 102, 204, 133, 23, 46, 92, 184, 109, 218, 169, 79, 158, 33, 66, 132, 21, 42, 84, 168,
  77, 154, 41, 82, 164, 85, 170, 73, 146, 57, 114, 228, 213, 183, 115, 230, 209, 191, 99, 198,
  145, 63, 126, 252, 229, 215, 179, 123, 246, 241, 255, 227, 219, 171, 75, 150, 49, 98, 196, 149,
  55, 110, 220, 165, 87, 174, 65, 130, 25, 50, 100, 200, 141, 7, 14, 28, 56, 112, 224, 221,
  167, 83, 166, 81, 162, 89, 178, 121, 242, 249, 239, 195, 155, 43, 86, 172, 69, 138, 9, 18,
  36, 72, 144, 61, 122, 244, 245, 247, 243, 251, 235, 203, 139, 11, 22, 44, 88, 176, 125, 250,
  233, 207, 131, 27, 54, 108, 216, 173, 71, 142, 1, 2]

/-- Literal copy of the computed log table (for fast kernel evaluation in proofs). -/
def logTable : List Int := [
  -1, 0, 1, 25, 2, 50, 26, 198, 3, 223, 51, 238, 27, 104, 199, 75, 4, 100, 224, 14,
  52, 141, 239, 129, 28, 193, 105, 248, 200, 8, 76, 113, 5, 138, 101, 47, 225, 36, 15, 33,
  53, 147, 142, 218, 240, 18, 130, 69, 29, 181, 194, 125, 106, 39, 249, 185, 201, 154, 9, 120,
  77, 228, 114, 166, 6, 191, 139, 98, 102, 221, 48, 253, 226, 152, 37, 179, 16, 145, 34, 136,
  54, 208, 148, 206, 143, 150, 219, 189, 241, 210, 19, 92, 131, 56, 70, 64, 30, 66, 182, 163,
  195, 72, 126, 110, 107, 58, 40, 84, 250, 133, 186, 61, 202, 94, 155, 159, 10, 21, 121, 43,
  78, 212, 229, 172, 115, 243, 167, 87, 7, 112, 192, 247, 140, 128, 99, 13, 103, 74, 222, 237,
  49, 197, 254, 24, 227, 165, 153, 119, 38, 184, 180, 124, 17, 68, 146, 217, 35, 32, 137, 46,
  55, 63, 209, 91, 149, 188, 207, 205, 144, 135, 151, 178, 220, 252, 190, 97, 242, 86, 211, 171,
  20, 42, 93, 158, 132, 60, 57, 83, 71, 109, 65, 162, 31, 45, 67, 216, 183, 123, 164, 118,
  196, 23, 73, 236, 127, 12, 111, 246, 108, 161, 59, 82, 41, 157, 85, 170, 251, 96, 134, 177,
  187, 204, 62, 90, 203, 89, 95, 176, 156, 169, 160, 81, 11, 245, 22, 235, 122, 117, 44, 215,
  79, 174, 213, 233, 230, 231, 173, 232, 116, 214, 244, 234, 168, 80, 88, 175]

/-- Packaged literal tables, proved below to equal `Gf256.new`. -/
def gfT : Gf256 := ⟨expTable, logTable⟩

/-- Iterated multiplication by the generator 2: the power function α^e used to
state what the exponent table holds. -/
def gfPow (gf : Gf256) (e : Nat) : Nat :=
  (List.range e).foldl (fun val _ => gf.mul val 2) 1

/-- Row swap `aug.swap(col, pivot_row)` on a list-of-rows matrix. -/
def swapRows (aug : List (List Nat)) (i j : Nat) : List (List Nat) :=
  let ri := aug.getD i []
  let rj := aug.getD j []
  (aug.set i rj).set j ri

/-- In-place update loop `for j in lo..lo+len { l[j] = f(j, l[j]) }` over a byte row. -/
def updRange (lo len : Nat) (f : Nat → Nat → Nat) (l : List Nat) : List Nat :=
  (List.range' lo len).foldl (fun acc j => acc.set j (f j (acc.getD j 0))) l

/-- One column step of the Gauss–Jordan loop of `invert_matrix`
(identical in `src/rs/matrix.rs` and `src/codec/matrix.rs`): pivot search on
rows `col..n`, row swap, row normalisation by the pivot inverse, and
elimination of the `col` entry from every other row. -/
def gjStep (gf : Gf256) (n : Nat) (aug : List (List Nat)) (col : Nat) :
    Except String (List (List Nat)) :=
  match (List.range' col (n - col)).find? (fun r => (aug.getD r []).getD col 0 != 0) with
  | none => .error "Matrix is singular and cannot be inverted"
  | some pivot_row =>
    let aug := swapRows aug col pivot_row
    match gf.inv ((aug.getD col []).getD col 0) with
    | .error e => .error e
    | .ok inv_pivot =>
      let rowc := updRange col (2 * n - col) (fun _ v => gf.mul inv_pivot v) (aug.getD col [])
      let aug := aug.set col rowc
      .ok ((List.range n).foldl (fun aug2 row =>
        if row = col then aug2
        else
          let factor := (aug2.getD row []).getD col 0
          if factor = 0 then aug2
          else aug2.set row (updRange col (2 * n - col)
            (fun j v => v ^^^ gf.mul factor (rowc.getD j 0)) (aug2.getD row []))) aug)

/-- Gauss–Jordan inversion over GF(2^8) on the augmented matrix `[M | I]`
(identical in `src/rs/matrix.rs` and `src/codec/matrix.rs`). -/
def invert_matrix (gf : Gf256) (mat : List (List Nat)) : Except String (List (List Nat)) :=
  let n := mat.length
  if n = 0 ∨ mat.any (fun r => r.length != n) then .error "Matrix must be square"
  else
    match (List.range n).foldlM (gjStep gf n)
        ((List.range n).map (fun r =>
          (mat.getD r []) ++ (List.range n).map (fun j => if j = r then 1 else 0))) with
    | .error e => .error e
    | .ok aug => .ok (aug.map (fun row => row.drop n))

/-- The k×k identity matrix, used to state lemmas about survivor matrices. -/
def idMatrix (k : Nat) : List (List Nat) :=
  (List.range k).map (fun r => (List.range k).map (fun j => if j = r then 1 else 0))

/-- Row r of the n×n identity matrix. -/
def idRow (n r : Nat) : List Nat := (List.range n).map (fun j => if j = r then 1 else 0)

/-- The augmented matrix `[I | I]` that Gauss–Jordan builds from the identity. -/
def augId (n : Nat) : List (List Nat) := (List.range n).map (fun r => idRow n r ++ idRow n r)

/-- The k×k survivor matrix `A` built from the first k present slots: an identity
row for a surviving data shard, a Vandermonde row for a surviving parity shard
(identical construction in `src/rs/reconstruct_shards.rs` and
`Codec::get_or_compute_inverse_matrix`). -/
def survivorMatrix (vand : List (List Nat)) (k : Nat) (survivors : List Nat) :
    List (List Nat) :=
  (List.range k).map (fun row_idx =>
    let global_row := survivors.getD row_idx 0
    if global_row < k then (List.range k).map (fun j => if j = global_row then 1 else 0)
    else vand.getD (global_row - k) [])

namespace rs

/-- Vandermonde builder of `src/rs/matrix.rs`: `V[r][c] = x^c` computed by the
inner loop `for _ in 0..c { val = gf.mul(val, x) }` with `x = (r + 1) as u8`. -/
def build_vandermonde (k m : Nat) : List (List Nat) :=
  let gf := Gf256.new
  (List.range m).map (fun r =>
    (List.range k).map (fun c =>
      (List.range c).foldl (fun val _ => gf.mul val ((r + 1) % 256)) 1))

/-- The shared per-coefficient inner loop of `shard_encoding` (and of the data
recovery loop of `shard_reconstruction`): skip on coefficient 0, plain XOR on
coefficient 1, otherwise `out[i] ^= gf.mul(coef, ds[i])` for `i in 0..shard_len`. -/
def applyCoef (gf : Gf256) (coef : Nat) (parity ds : List Nat) (shard_len : Nat) : List Nat :=
  if coef = 0 then parity
  else if coef = 1 then parity.zipWith (fun p d => p ^^^ d) ds
  else updRange 0 shard_len (fun i v => v ^^^ gf.mul coef (ds.getD i 0)) parity

/-- Parity computation `shard_encoding` of `src/rs/encode_shards.rs`. -/
def shard_encoding (gf : Gf256) (matrix data_shards : List (List Nat)) :
    Except String (List (List Nat)) :=
  let m := matrix.length
  if m = 0 then .ok []
  else
    let k := (matrix.headD []).length
    if k ≠ data_shards.length then
      .error "Matrix columns must match the number of data shards"
    else
      let shard_len := (data_shards.headD []).length
      if data_shards.any (fun s => s.length != shard_len) then
        .error "All data shards must have the same length"
      else
        .ok (matrix.map (fun row =>
          (List.range (min k data_shards.length)).foldl
            (fun parity c => applyCoef gf (row.getD c 0) parity (data_shards.getD c []) shard_len)
            (List.replicate shard_len 0)))

/-- One step of the loop `for i in 0..k { if shards_opt[i].is_none() { shards_opt[i] =
Some(recovered_iter.next().unwrap()) } }`: state is the slot vector plus the
queue of recovered data shards. -/
def fillStep (st : List (Option (List Nat)) × List (List Nat)) (i : Nat) :
    List (Option (List Nat)) × List (List Nat) :=
  match st.1.getD i none with
  | some _ => st
  | none => (st.1.set i (some (st.2.headD [])), st.2.tail)

/-- One step of the loop `for r in 0..m { if shards_opt[k + r].is_none() { shards_opt[k + r] =
Some(parities[r].clone()) } }`. -/
def parityFillStep (parities : List (List Nat)) (k : Nat)
    (sh : List (Option (List Nat))) (r : Nat) : List (Option (List Nat)) :=
  match sh.getD (k + r) none with
  | some _ => sh
  | none => sh.set (k + r) (some (parities.getD r []))

/-- Reconstruction `shard_reconstruction` of `src/rs/reconstruct_shards.rs`.
The `assert_eq!(n, shards_opt.len())` is modelled as an error, and the slot
vector is returned instead of being mutated in place. -/
def shard_reconstruction (gf : Gf256) (k m : Nat) (shards_opt : List (Option (List Nat))) :
    Except String (List (Option (List Nat))) :=
  let n := k + m
  if n ≠ shards_opt.length then .error "assertion failed: n == shards_opt.len()"
  else
    match shards_opt.findSome? (fun s => s.map List.length) with
    | none => .error "No shards available to determine length"
    | some shard_len =>
      let present_indices := (List.range n).filter (fun i => (shards_opt.getD i none).isSome)
      if present_indices.length < k then
        .error ("Not enough shards to reconstruct: have " ++
          toString present_indices.length ++ ", need " ++ toString k)
      else
        let vandermonde_base := build_vandermonde k m
        let survivors := present_indices.take k
        let a := survivorMatrix vandermonde_base k survivors
        match Except.mapError (fun e => "Failed to invert the reconstruction matrix: " ++ e)
            (invert_matrix gf a) with
        | .error e => .error e
        | .ok a_inv =>
          let survivor_data := survivors.map (fun idx => (shards_opt.getD idx none).getD [])
          let missing_data_indices :=
            (List.range k).filter (fun i => (shards_opt.getD i none).isNone)
          let recovered_data := missing_data_indices.map (fun original_index =>
            let inv_row := a_inv.getD original_index []
            (List.range (min k survivor_data.length)).foldl
              (fun out_shard j =>
                applyCoef gf (inv_row.getD j 0) out_shard (survivor_data.getD j []) shard_len)
              (List.replicate shard_len 0))
          let filled := ((List.range k).foldl fillStep (shards_opt, recovered_data)).1
          let all_data_shards := (List.range k).map (fun i => (filled.getD i none).getD [])
          match shard_encoding gf vandermonde_base all_data_shards with
          | .error e => .error e
          | .ok parities =>
            .ok ((List.range m).foldl (parityFillStep parities k) filled)

end rs

namespace codec

/-- Vandermonde builder of `src/codec/matrix.rs`:
`matrix[r][c] = gf.exp[((r + k) as i32 * c as i32 % 255) as usize]`
(the operands are non-negative, so the `i32` arithmetic is plain `Nat` arithmetic). -/
def build_vandermonde (gf : Gf256) (k m : Nat) : List (List Nat) :=
  (List.range m).map (fun r =>
    (List.range k).map (fun c => gf.exp.getD (((r + k) * c) % 255) 0))

/-- Vector–matrix product `mul_vec_matrix` of `src/codec/matrix.rs`:
`result[j] = XOR over i of mul(vec[i], mat[i][j])`. -/
def mul_vec_matrix (gf : Gf256) (vec : List Nat) (mat : List (List Nat)) : List Nat :=
  let cols := (mat.headD []).length
  (List.range cols).map (fun j =>
    vec.enum.foldl (fun sum iv => sum ^^^ gf.mul iv.2 ((mat.getD iv.1 []).getD j 0)) 0)

/-- Insertion of one element into a sorted list, for the `sort_unstable` cache key. -/
def insertSorted (x : Nat) : List Nat → List Nat
  | [] => [x]
  | y :: ys => if x ≤ y then x :: y :: ys else y :: insertSorted x ys

/-- Ascending sort of the survivor indices, modelling `key.sort_unstable()`. -/
def sortKey (l : List Nat) : List Nat := l.foldr insertSorted []

/-- The `Codec` of `src/codec/reconstruct_shards.rs`.  The `DashMap` cache is
not part of the structure; it is passed explicitly to the operations below as
an association list from sorted survivor keys to inverted matrices. -/
structure Codec where
  k : Nat
  m : Nat
  n : Nat
  gf : Gf256
  encode_matrix : List (List Nat)
deriving Repr, DecidableEq

/-- Constructor `Codec::new`. -/
def Codec.new (k m : Nat) : Codec :=
  let gf := Gf256.new
  { k := k, m := m, n := k + m, gf := gf, encode_matrix := build_vandermonde gf k m }

/-- Cache lookup / survivor matrix construction / inversion,
`Codec::get_or_compute_inverse_matrix`.  The cache insert is dropped (the
caller of the embedding discards the updated cache; duplicate computes are
benign per the source comment). -/
def Codec.get_or_compute_inverse_matrix (c : Codec)
    (cache : List (List Nat × List (List Nat))) (survivors : List Nat) :
    Except String (List (List Nat)) :=
  let key := sortKey survivors
  match cache.lookup key with
  | some cached => .ok cached
  | none =>
    let a := survivorMatrix c.encode_matrix c.k survivors
    Except.mapError (fun e => "Failed to invert matrix for survivors: " ++ e)
      (invert_matrix c.gf a)

/-- Reconstruction `Codec::reconstruct`.  The `assert_eq!` is modelled as an
error and the slot vector is returned instead of being mutated in place. -/
def Codec.reconstruct (c : Codec) (cache : List (List Nat × List (List Nat)))
    (shards_opt : List (Option (List Nat))) :
    Except String (List (Option (List Nat))) :=
  if c.n ≠ shards_opt.length then .error "assertion failed: n == shards_opt.len()"
  else
    match shards_opt.findSome? (fun s => s.map List.length) with
    | none => .error "No shards available to determine length"
    | some shard_len =>
      let present_indices := (List.range c.n).filter (fun i => (shards_opt.getD i none).isSome)
      if present_indices.length < c.k then
        .error ("Not enough shards to reconstruct: have " ++
          toString present_indices.length ++ ", need " ++ toString c.k)
      else
        let survivors := present_indices.take c.k
        match c.get_or_compute_inverse_matrix cache survivors with
        | .error e => .error e
        | .ok a_inv =>
          let survivor_data := survivors.map (fun idx => (shards_opt.getD idx none).getD [])
          let missing_indices := (List.range c.n).filter (fun i => (shards_opt.getD i none).isNone)
          if missing_indices.isEmpty then .ok shards_opt
          else
            let recovered_shards := missing_indices.map (fun missing_idx =>
              let recovery_row :=
                if missing_idx < c.k then a_inv.getD missing_idx []
                else mul_vec_matrix c.gf (c.encode_matrix.getD (missing_idx - c.k) []) a_inv
              let out_shard := survivor_data.enum.foldl (fun out_shard jd =>
                let coef := recovery_row.getD jd.1 0
                if coef = 0 then out_shard
                else if coef = 1 then out_shard.zipWith (fun o i => o ^^^ i) jd.2
                else
                  let mult_table := c.gf.mul_table coef
                  out_shard.zipWith (fun o i => o ^^^ mult_table.getD i 0) jd.2)
                (List.replicate shard_len 0)
              (missing_idx, out_shard))
            .ok (recovered_shards.foldl (fun sh p => sh.set p.1 (some p.2)) shards_opt)

end codec

/-- Parameter validation at the top of `handle_encode` in `src/io/encoding.rs`:
`if k == 0 || m == 0 || k + m > 256 { return Err(...) }`. -/
def handle_encode_param_check (k m : Nat) : Except String Unit :=
  if k = 0 ∨ m = 0 ∨ k + m > 256 then
    .error "Invalid k/m values. Must be > 0 and k+m <= 256"
  else .ok ()


/-- Total value of `Gf256::inv` (the payload of the `Ok`, `0` for the error case),
used to state the inverse claims. -/
def gfInv (gf : Gf256) (a : Nat) : Nat := (gf.inv a).toOption.getD 0

/-- Reference parity byte, following the spec wording
`P[r][t] = XOR over c in [0,k) of mul(V[r][c], D[c][t])`. -/
def parity_formula (gf : Gf256) (V D : List (List Nat)) (k r t : Nat) : Nat :=
  (List.range k).foldl
    (fun acc c => acc ^^^ gf.mul ((V.getD r []).getD c 0) ((D.getD c []).getD t 0)) 0

/-- Reference parity matrix, following the spec wording: `m` parity shards of
length `L`, each byte given by `parity_formula`. -/
def parity_matrix_formula (gf : Gf256) (V D : List (List Nat)) (m k L : Nat) :
    List (List Nat) :=
  (List.range m).map (fun r => (List.range L).map (fun t => parity_formula gf V D k r t))


/-! ### Generic list helpers -/

theorem getD_of_lt {α : Type} (l : List α) (i : Nat) (d : α) (h : i < l.length) :
    l.getD i d = l.get ⟨i, h⟩ := by
  simp [List.getD_eq_getElem?_getD, List.getElem?_eq_getElem h]

theorem getD_mem {α : Type} (l : List α) (i : Nat) (d : α) (h : i < l.length) :
    l.getD i d ∈ l := by
  rw [getD_of_lt l i d h]; exact List.get_mem l i h

theorem getD_set_self {α : Type} (l : List α) (i : Nat) (v d : α) (h : i < l.length) :
    (l.set i v).getD i d = v := by
  simp [List.getD_eq_getElem?_getD, List.getElem?_set_self h]

theorem getD_set_ne {α : Type} (l : List α) (i j : Nat) (v d : α) (h : i ≠ j) :
    (l.set i v).getD j d = l.getD j d := by
  simp [List.getD_eq_getElem?_getD, List.getElem?_set_ne h]

theorem set_getD_self {α : Type} (l : List α) (i : Nat) (d : α) (h : i < l.length) :
    l.set i (l.getD i d) = l := by
  induction l generalizing i with
  | nil => simp at h
  | cons a l ih =>
    cases i with
    | zero => rfl
    | succ j =>
      simp only [List.set_cons_succ, List.getD_cons_succ]
      rw [ih j (by simpa using h)]

theorem getD_map_of_lt {α β : Type} (f : α → β) (l : List α) (i : Nat) (d : β) (d' : α)
    (h : i < l.length) : (l.map f).getD i d = f (l.getD i d') := by
  simp [List.getD_eq_getElem?_getD, List.getElem?_map, List.getElem?_eq_getElem h]

theorem getD_range {n i : Nat} (d : Nat) : (List.range n).getD i d = if i < n then i else d := by
  by_cases h : i < n
  · simp [List.getD_eq_getElem?_getD, List.getElem?_range h, h]
  · have hlen : (List.range n).length ≤ i := by simp [List.length_range]; omega
    simp [List.getD_eq_getElem?_getD, List.getElem?_eq_none hlen, h]

theorem getD_map_range {α : Type} (f : Nat → α) (n i : Nat) (d : α) :
    ((List.range n).map f).getD i d = if i < n then f i else d := by
  by_cases h : i < n
  · rw [getD_map_of_lt f _ i d 0 (by simpa using h), getD_range, if_pos h, if_pos h]
  · have hlen : ((List.range n).map f).length ≤ i := by
      simp [List.length_map, List.length_range]; omega
    simp [List.getD_eq_getElem?_getD, h, List.getElem?_eq_none hlen]

theorem getD_append_left {α : Type} (l₁ l₂ : List α) (i : Nat) (d : α) (h : i < l₁.length) :
    (l₁ ++ l₂).getD i d = l₁.getD i d := by
  simp [List.getD_eq_getElem?_getD, List.getElem?_append_left h]

theorem getD_append_right {α : Type} (l₁ l₂ : List α) (i : Nat) (d : α) (h : l₁.length ≤ i) :
    (l₁ ++ l₂).getD i d = l₂.getD (i - l₁.length) d := by
  simp [List.getD_eq_getElem?_getD, List.getElem?_append_right h]

theorem getD_replicate {α : Type} (n i : Nat) (a d : α) :
    (List.replicate n a).getD i d = if i < n then a else d := by
  by_cases h : i < n
  · simp [List.getD_eq_getElem?_getD, List.getElem?_replicate, h]
  · simp [List.getD_eq_getElem?_getD, List.getElem?_replicate, h]

theorem eq_of_getD {α : Type} (d : α) (l₁ l₂ : List α) (hl : l₁.length = l₂.length)
    (h : ∀ t, t < l₁.length → l₁.getD t d = l₂.getD t d) : l₁ = l₂ := by
  apply List.ext_get hl
  intro t h₁ h₂
  have := h t h₁
  rwa [getD_of_lt l₁ t d h₁, getD_of_lt l₂ t d h₂] at this

theorem getD_zipWith {α β γ : Type} (f : α → β → γ) (l₁ : List α) (l₂ : List β)
    (t : Nat) (d : γ) (d₁ : α) (d₂ : β) (h₁ : t < l₁.length) (h₂ : t < l₂.length) :
    (List.zipWith f l₁ l₂).getD t d = f (l₁.getD t d₁) (l₂.getD t d₂) := by
  simp [List.getD_eq_getElem?_getD, List.getElem?_zipWith,
    List.getElem?_eq_getElem h₁, List.getElem?_eq_getElem h₂]

theorem foldl_fixed {α β : Type} (f : β → α → β) (b : β) (l : List α)
    (h : ∀ x ∈ l, f b x = b) : l.foldl f b = b := by
  induction l with
  | nil => rfl
  | cons x xs ih =>
    rw [List.foldl_cons, h x (List.mem_cons_self x xs)]
    exact ih (fun y hy => h y (List.mem_cons_of_mem x hy))

theorem foldlM_fixed {ε α β : Type} (f : β → α → Except ε β) (b : β) (l : List α)
    (h : ∀ x ∈ l, f b x = .ok b) : l.foldlM f b = .ok b := by
  induction l with
  | nil => rfl
  | cons x xs ih =>
    rw [List.foldlM_cons, h x (List.mem_cons_self x xs)]
    exact ih (fun y hy => h y (List.mem_cons_of_mem x hy))

theorem headD_map_range {α : Type} (f : Nat → α) (n : Nat) (d : α) (h : 0 < n) :
    ((List.range n).map f).headD d = f 0 := by
  obtain ⟨n', rfl⟩ : ∃ n', n = n' + 1 := ⟨n - 1, (Nat.succ_pred_eq_of_pos h).symm⟩
  rw [List.range_succ_eq_map]
  rfl

theorem updRange_length (lo len : Nat) (f : Nat → Nat → Nat) (l : List Nat) :
    (updRange lo len f l).length = l.length := by
  unfold updRange
  induction len generalizing lo l with
  | zero => rfl
  | succ n ih =>
    rw [List.range'_succ, List.foldl_cons]
    rw [ih (lo + 1)]
    exact List.length_set l lo _

theorem updRange_getD (lo len : Nat) (f : Nat → Nat → Nat) (l : List Nat)
    (hb : lo + len ≤ l.length) (t : Nat) :
    (updRange lo len f l).getD t 0 =
      if lo ≤ t ∧ t < lo + len then f t (l.getD t 0) else l.getD t 0 := by
  unfold updRange
  induction len generalizing lo l with
  | zero =>
    simp only [List.range', List.foldl_nil]
    have : ¬(lo ≤ t ∧ t < lo + 0) := by omega
    rw [if_neg this]
  | succ n ih =>
    rw [List.range'_succ, List.foldl_cons]
    have hlo : lo < l.length := by omega
    have hb' : (lo + 1) + n ≤ (l.set lo (f lo (l.getD lo 0))).length := by
      rw [List.length_set]; omega
    rw [ih (lo + 1) _ hb']
    by_cases h1 : (lo + 1) ≤ t ∧ t < (lo + 1) + n
    · rw [if_pos h1, if_pos (by omega)]
      rw [getD_set_ne l lo t _ 0 (by omega)]
    · rw [if_neg h1]
      by_cases h2 : t = lo
      · subst h2
        rw [getD_set_self l t _ 0 hlo, if_pos (by omega)]
      · rw [getD_set_ne l lo t _ 0 (fun hh => h2 hh.symm),
          if_neg (by omega)]

theorem updRange_fix (lo len : Nat) (f : Nat → Nat → Nat) (l : List Nat)
    (hb : lo + len ≤ l.length) (h : ∀ j, f j (l.getD j 0) = l.getD j 0) :
    updRange lo len f l = l := by
  refine eq_of_getD 0 _ _ (updRange_length lo len f l) (fun t _ => ?_)
  rw [updRange_getD lo len f l hb t]
  by_cases hc : lo ≤ t ∧ t < lo + len
  · rw [if_pos hc, h t]
  · rw [if_neg hc]

/-! ### Field table facts -/

theorem gf_new_eq : Gf256.new = gfT := by rfl

theorem mul_a_zero (gf : Gf256) (a : Nat) : gf.mul a 0 = 0 := by simp [Gf256.mul]

theorem mul_zero_a (gf : Gf256) (a : Nat) : gf.mul 0 a = 0 := by simp [Gf256.mul]

theorem mul_comm_gf (gf : Gf256) (a b : Nat) : gf.mul a b = gf.mul b a := by
  by_cases ha : a = 0
  · simp [Gf256.mul, ha]
  · by_cases hb : b = 0
    · simp [Gf256.mul, ha, hb]
    · simp only [Gf256.mul, ha, hb, or_self, or_comm, if_neg, false_or]
      rw [Int.add_comm]

theorem inv_eq_ok (gf : Gf256) (a : Nat) (h : a ≠ 0) : gf.inv a = .ok (gfInv gf a) := by
  simp [Gf256.inv, gfInv, h, Except.toOption]

theorem mul_one_right_T : ∀ a, a < 256 → gfT.mul a 1 = a := by decide

theorem mul_one_left_T : ∀ b, b < 256 → gfT.mul 1 b = b := by decide

theorem log_range_T : ∀ a, a < 256 → a ≠ 0 → 0 ≤ gfT.log.getD a 0 ∧ gfT.log.getD a 0 ≤ 254 := by
  decide

theorem inv_val_T : ∀ a, a < 256 → a ≠ 0 → gfInv gfT a ≠ 0 ∧ gfInv gfT a < 256 := by decide

theorem mul_inv_T : ∀ a, a < 256 → a ≠ 0 → gfT.mul a (gfInv gfT a) = 1 := by decide

theorem inv_inv_T : ∀ a, a < 256 → a ≠ 0 → gfInv gfT (gfInv gfT a) = a := by decide

theorem inv_one_T : gfT.inv 1 = .ok 1 := by rfl

theorem exp_succ_T : ∀ i, i < 254 → gfT.exp.getD (i + 1) 0 = gfT.mul (gfT.exp.getD i 0) 2 := by
  decide

theorem exp_len_T : gfT.exp.length = 512 := by rfl

theorem log_len_T : gfT.log.length = 256 := by rfl

theorem gfPow_succ (gf : Gf256) (e : Nat) : gfPow gf (e + 1) = gf.mul (gfPow gf e) 2 := by
  unfold gfPow
  rw [List.range_succ, List.foldl_append, List.foldl_cons, List.foldl_nil]

theorem exp_pow_T : ∀ i, i < 255 → gfT.exp.getD i 0 = gfPow gfT i := by
  intro i
  induction i with
  | zero => intro _; rfl
  | succ j ih =>
    intro h
    rw [gfPow_succ, ← ih (by omega), exp_succ_T j (by omega)]

/-! ### Matrix shapes and inversion of the identity -/

theorem idMatrix_eq (k : Nat) : idMatrix k = (List.range k).map (idRow k) := rfl

theorem idRow_length (n r : Nat) : (idRow n r).length = n := by simp [idRow]

theorem idMatrix_length (k : Nat) : (idMatrix k).length = k := by simp [idMatrix]

theorem idMatrix_row (k r : Nat) (h : r < k) : (idMatrix k).getD r [] = idRow k r := by
  rw [idMatrix_eq, getD_map_range, if_pos h]

theorem idMatrix_row_length (k : Nat) : ∀ row ∈ idMatrix k, row.length = k := by
  intro row hrow
  rw [idMatrix_eq] at hrow
  simp only [List.mem_map] at hrow
  obtain ⟨r, _, rfl⟩ := hrow
  exact idRow_length k r

theorem augId_length (n : Nat) : (augId n).length = n := by simp [augId]

theorem augId_row (n r : Nat) (h : r < n) : (augId n).getD r [] = idRow n r ++ idRow n r := by
  unfold augId
  rw [getD_map_range, if_pos h]

theorem augId_row_length (n r : Nat) (h : r < n) : ((augId n).getD r []).length = 2 * n := by
  rw [augId_row n r h]
  simp [idRow]; omega

theorem idRow_getD (n r j : Nat) : (idRow n r).getD j 0 = if j < n ∧ j = r then 1 else 0 := by
  unfold idRow
  rw [getD_map_range]
  by_cases hj : j < n
  · by_cases hr : j = r
    · rw [if_pos hj, if_pos hr, if_pos ⟨hj, hr⟩]
    · rw [if_pos hj, if_neg hr, if_neg (fun hc => hr hc.2)]
  · rw [if_neg hj, if_neg (fun hc => hj hc.1)]

theorem augId_entry (n r j : Nat) (h : r < n) :
    ((augId n).getD r []).getD j 0 = if j = r ∨ j = n + r then 1 else 0 := by
  rw [augId_row n r h]
  by_cases hj : j < n
  · rw [getD_append_left _ _ _ _ (by rw [idRow_length]; exact hj), idRow_getD]
    by_cases hr : j = r
    · rw [if_pos ⟨hj, hr⟩, if_pos (Or.inl hr)]
    · rw [if_neg (fun hc => hr hc.2), if_neg (by omega)]
  · rw [getD_append_right _ _ _ _ (by rw [idRow_length]; omega), idRow_length, idRow_getD]
    by_cases hr : j = n + r
    · rw [if_pos (by omega), if_pos (Or.inr hr)]
    · rw [if_neg (by omega), if_neg (by omega)]

theorem swapRows_self (l : List (List Nat)) (i : Nat) (h : i < l.length) :
    swapRows l i i = l := by
  unfold swapRows
  rw [List.set_set, set_getD_self l i [] h]

theorem gjStep_id (n col : Nat) (hcol : col < n) :
    gjStep gfT n (augId n) col = .ok (augId n) := by
  unfold gjStep
  have hfind : (List.range' col (n - col)).find?
      (fun r => ((augId n).getD r []).getD col 0 != 0) = some col := by
    rw [show n - col = (n - col - 1) + 1 from by omega, List.range'_succ, List.find?_cons]
    have : ((augId n).getD col []).getD col 0 = 1 := by
      rw [augId_entry n col col hcol, if_pos (Or.inl rfl)]
    rw [this]
    rfl
  rw [hfind]
  simp only
  rw [swapRows_self _ col (by rw [augId_length]; exact hcol)]
  have hpivot : ((augId n).getD col []).getD col 0 = 1 := by
    rw [augId_entry n col col hcol, if_pos (Or.inl rfl)]
  rw [hpivot, inv_one_T]
  simp only
  have hrowc : updRange col (2 * n - col) (fun _ v => gfT.mul 1 v) ((augId n).getD col []) =
      (augId n).getD col [] := by
    apply updRange_fix
    · rw [augId_row_length n col hcol]; omega
    · intro j
      rw [augId_entry n col j hcol]
      by_cases hc : j = col ∨ j = n + col
      · rw [if_pos hc]; exact mul_one_left_T 1 (by omega)
      · rw [if_neg hc]; exact mul_a_zero gfT 1
  rw [hrowc, set_getD_self _ col [] (by rw [augId_length]; exact hcol)]
  congr 1
  apply foldl_fixed
  intro row hrow
  by_cases hrc : row = col
  · rw [if_pos hrc]
  · rw [if_neg hrc]
    have hfac : ((augId n).getD row []).getD col 0 = 0 := by
      rw [augId_entry n row col (List.mem_range.mp hrow), if_neg (by omega)]
    rw [hfac]
    simp

theorem invert_idMatrix (n : Nat) (hn : 1 ≤ n) :
    invert_matrix gfT (idMatrix n) = .ok (idMatrix n) := by
  unfold invert_matrix
  simp only [idMatrix_length]
  rw [if_neg]
  · have haug : (List.range n).map (fun r =>
        ((idMatrix n).getD r []) ++ (List.range n).map (fun j => if j = r then 1 else 0)) =
        augId n := by
      unfold augId
      apply List.map_congr_left
      intro r hr
      rw [idMatrix_row n r (List.mem_range.mp hr)]
      rfl
    rw [haug]
    rw [foldlM_fixed _ _ _ (fun col hcol => gjStep_id n col (List.mem_range.mp hcol))]
    simp only
    congr 1
    unfold augId
    rw [List.map_map, idMatrix_eq]
    apply List.map_congr_left
    intro r hr
    show (idRow n r ++ idRow n r).drop n = idRow n r
    have hdrop := List.drop_left (idRow n r) (idRow n r)
    rwa [idRow_length] at hdrop
  · rw [not_or]
    refine ⟨by omega, ?_⟩
    rw [Bool.not_eq_true, List.any_eq_false]
    intro row hrow
    rw [idMatrix_row_length n row hrow]
    simp

/-! ### Encoding: fast paths equal the reference formula -/

theorem applyCoef_length (gf : Gf256) (coef : Nat) (parity ds : List Nat) (L : Nat)
    (hp : parity.length = L) (hds : ds.length = L) :
    (rs.applyCoef gf coef parity ds L).length = L := by
  unfold rs.applyCoef
  by_cases h0 : coef = 0
  · rw [if_pos h0]; exact hp
  · rw [if_neg h0]
    by_cases h1 : coef = 1
    · rw [if_pos h1, List.length_zipWith, hp, hds, Nat.min_self]
    · rw [if_neg h1, updRange_length]; exact hp

theorem applyCoef_getD (coef : Nat) (parity ds : List Nat) (L t : Nat)
    (hp : parity.length = L) (hds : ds.length = L) (hbytes : ∀ b ∈ ds, b < 256)
    (ht : t < L) :
    (rs.applyCoef gfT coef parity ds L).getD t 0 =
      parity.getD t 0 ^^^ gfT.mul coef (ds.getD t 0) := by
  unfold rs.applyCoef
  by_cases h0 : coef = 0
  · rw [if_pos h0, h0, mul_zero_a, Nat.xor_zero]
  · rw [if_neg h0]
    by_cases h1 : coef = 1
    · rw [if_pos h1, h1,
        getD_zipWith _ parity ds t 0 0 0 (by omega) (by omega),
        mul_one_left_T (ds.getD t 0) (hbytes _ (getD_mem ds t 0 (by omega)))]
    · rw [if_neg h1, updRange_getD 0 L _ parity (by omega) t,
        if_pos ⟨Nat.zero_le t, by omega⟩]

theorem encodeRow_spec (row : List Nat) (D : List (List Nat)) (L : Nat)
    (hds : ∀ ds ∈ D, ds.length = L ∧ ∀ b ∈ ds, b < 256) :
    ∀ j, j ≤ D.length →
      ((List.range j).foldl
        (fun parity c => rs.applyCoef gfT (row.getD c 0) parity (D.getD c []) L)
        (List.replicate L 0)).length = L ∧
      ∀ t, t < L →
        ((List.range j).foldl
          (fun parity c => rs.applyCoef gfT (row.getD c 0) parity (D.getD c []) L)
          (List.replicate L 0)).getD t 0 =
        (List.range j).foldl
          (fun acc c => acc ^^^ gfT.mul (row.getD c 0) ((D.getD c []).getD t 0)) 0 := by
  intro j
  induction j with
  | zero =>
    intro _
    refine ⟨List.length_replicate L 0, fun t ht => ?_⟩
    rw [List.range_zero, List.foldl_nil, List.foldl_nil, getD_replicate, if_pos ht]
  | succ i ih =>
    intro h
    obtain ⟨ihlen, ihval⟩ := ih (by omega)
    have hdi := hds (D.getD i []) (getD_mem D i [] (by omega))
    constructor
    · rw [List.range_succ, List.foldl_append, List.foldl_cons, List.foldl_nil]
      exact applyCoef_length gfT _ _ _ L ihlen hdi.1
    · intro t ht
      rw [List.range_succ, List.foldl_append, List.foldl_cons, List.foldl_nil,
        List.foldl_append, List.foldl_cons, List.foldl_nil]
      rw [applyCoef_getD _ _ _ L t ihlen hdi.1 hdi.2 ht, ihval t ht]

theorem shard_encoding_formula (V D : List (List Nat))
    (hk : (V.headD []).length = D.length)
    (hds : ∀ ds ∈ D, ds.length = (D.headD []).length ∧ ∀ b ∈ ds, b < 256) :
    rs.shard_encoding gfT V D =
      .ok (parity_matrix_formula gfT V D V.length (V.headD []).length (D.headD []).length) := by
  have hany : D.any (fun s => s.length != (D.headD []).length) = false := by
    rw [List.any_eq_false]
    intro ds hmem
    rw [(hds ds hmem).1]
    simp
  simp only [rs.shard_encoding]
  by_cases hm : V.length = 0
  · rw [if_pos hm]
    unfold parity_matrix_formula
    rw [hm, List.range_zero, List.map_nil]
  · rw [if_neg hm, if_neg (fun hc => hc hk)]
    rw [if_neg (by rw [hany]; simp)]
    congr 1
    apply eq_of_getD ([] : List Nat)
    · unfold parity_matrix_formula
      simp
    · intro r hr
      rw [List.length_map] at hr
      rw [getD_map_of_lt _ V r [] [] hr]
      unfold parity_matrix_formula
      rw [getD_map_range, if_pos hr]
      have hmin : min (V.headD []).length D.length = (V.headD []).length := by
        rw [hk, Nat.min_self]
      rw [hmin]
      obtain ⟨hlen, hval⟩ :=
        encodeRow_spec (V.getD r []) D (D.headD []).length hds (V.headD []).length (le_of_eq hk)
      apply eq_of_getD 0
      · rw [hlen, List.length_map, List.length_range]
      · intro t ht
        rw [hlen] at ht
        rw [hval t ht, getD_map_range, if_pos ht]
        rfl

theorem shard_encoding_ok (gf : Gf256) (V D : List (List Nat))
    (hk : V.length ≠ 0 → (V.headD []).length = D.length)
    (hlen : ∀ ds ∈ D, ds.length = (D.headD []).length) :
    ∃ P, rs.shard_encoding gf V D = .ok P ∧ P.length = V.length := by
  have hany : D.any (fun s => s.length != (D.headD []).length) = false := by
    rw [List.any_eq_false]
    intro ds hmem
    rw [hlen ds hmem]
    simp
  simp only [rs.shard_encoding]
  by_cases hm : V.length = 0
  · rw [if_pos hm]
    exact ⟨[], rfl, by rw [hm]; rfl⟩
  · rw [if_neg hm, if_neg (fun hc => hc (hk hm))]
    rw [if_neg (by rw [hany]; simp)]
    exact ⟨_, rfl, List.length_map V _⟩

/-! ### Slot-vector fold lemmas -/

theorem isSome_getD_lt {α : Type} (l : List (Option α)) (i : Nat)
    (h : (l.getD i none).isSome) : i < l.length := by
  by_contra hc
  rw [List.getD_eq_getElem?_getD, List.getElem?_eq_none (by omega)] at h
  simp at h

theorem findSome_len_of_full (shards : List (Option (List Nat))) (L : Nat)
    (hne : shards ≠ [])
    (h : ∀ s ∈ shards, s.isSome ∧ (s.getD []).length = L) :
    shards.findSome? (fun s => s.map List.length) = some L := by
  cases shards with
  | nil => exact absurd rfl hne
  | cons s rest =>
    have hs := h s (List.mem_cons_self s rest)
    obtain ⟨v, hv⟩ := Option.isSome_iff_exists.mp hs.1
    rw [List.findSome?_cons, hv]
    have hvl : v.length = L := by
      have := hs.2
      rw [hv] at this
      simpa using this
    simp [hvl]

theorem findSome_isSome_of_mem (shards : List (Option (List Nat))) (s : Option (List Nat))
    (hmem : s ∈ shards) (hs : s.isSome) :
    (shards.findSome? (fun x => x.map List.length)).isSome := by
  induction shards with
  | nil => simp at hmem
  | cons a rest ih =>
    rw [List.findSome?_cons]
    cases ha : a.map List.length with
    | some w => rfl
    | none =>
      rcases List.mem_cons.mp hmem with h1 | h2
      · subst h1
        cases hv : s with
        | none => rw [hv] at hs; simp at hs
        | some v => rw [hv] at ha; simp at ha
      · exact ih h2

theorem fillStep_length (st : List (Option (List Nat)) × List (List Nat)) (j : Nat) :
    (rs.fillStep st j).1.length = st.1.length := by
  unfold rs.fillStep
  cases h : st.1.getD j none with
  | some v => rfl
  | none => exact List.length_set st.1 j _

theorem fillfold_length (l : List Nat) (st : List (Option (List Nat)) × List (List Nat)) :
    ((l.foldl rs.fillStep st).1).length = st.1.length := by
  induction l generalizing st with
  | nil => rfl
  | cons j rest ih => rw [List.foldl_cons, ih]; exact fillStep_length st j

theorem fillStep_frame (st : List (Option (List Nat)) × List (List Nat)) (j i : Nat)
    (v : List Nat) (h : st.1.getD i none = some v) :
    (rs.fillStep st j).1.getD i none = some v := by
  unfold rs.fillStep
  cases hj : st.1.getD j none with
  | some w => exact h
  | none =>
    by_cases hij : j = i
    · subst hij; rw [h] at hj; cases hj
    · show (st.1.set j (some (st.2.headD []))).getD i none = some v
      rw [getD_set_ne st.1 j i _ none hij]; exact h

theorem fillfold_frame (l : List Nat) (st : List (Option (List Nat)) × List (List Nat))
    (i : Nat) (v : List Nat) (h : st.1.getD i none = some v) :
    ((l.foldl rs.fillStep st).1).getD i none = some v := by
  induction l generalizing st with
  | nil => exact h
  | cons j rest ih => rw [List.foldl_cons]; exact ih _ (fillStep_frame st j i v h)

theorem fillfold_isSome (l : List Nat) (st : List (Option (List Nat)) × List (List Nat))
    (i : Nat) (h : (st.1.getD i none).isSome) :
    (((l.foldl rs.fillStep st).1).getD i none).isSome := by
  obtain ⟨v, hv⟩ := Option.isSome_iff_exists.mp h
  rw [fillfold_frame l st i v hv]
  rfl

theorem fillfold_covers (l : List Nat) (st : List (Option (List Nat)) × List (List Nat))
    (i : Nat) (hi : i < st.1.length) (hmem : i ∈ l) :
    (((l.foldl rs.fillStep st).1).getD i none).isSome := by
  induction l generalizing st with
  | nil => simp at hmem
  | cons j rest ih =>
    rw [List.foldl_cons]
    rcases List.mem_cons.mp hmem with h1 | h2
    · subst h1
      apply fillfold_isSome
      unfold rs.fillStep
      cases hj : st.1.getD i none with
      | some w =>
        show (st.1.getD i none).isSome = true
        rw [hj]; rfl
      | none =>
        show ((st.1.set i (some (st.2.headD []))).getD i none).isSome = true
        rw [getD_set_self st.1 i _ none hi]; rfl
    · exact ih _ (by rw [fillStep_length]; exact hi) h2

theorem parityFillStep_length (parities : List (List Nat)) (k : Nat)
    (sh : List (Option (List Nat))) (j : Nat) :
    (rs.parityFillStep parities k sh j).length = sh.length := by
  unfold rs.parityFillStep
  cases hj : sh.getD (k + j) none with
  | some v => rfl
  | none => exact List.length_set sh (k + j) _

theorem pfold_length (parities : List (List Nat)) (k : Nat) (l : List Nat)
    (sh : List (Option (List Nat))) :
    (l.foldl (rs.parityFillStep parities k) sh).length = sh.length := by
  induction l generalizing sh with
  | nil => rfl
  | cons j rest ih =>
    rw [List.foldl_cons, ih]
    exact parityFillStep_length parities k sh j

theorem parityFillStep_frame (parities : List (List Nat)) (k : Nat)
    (sh : List (Option (List Nat))) (j i : Nat) (v : List Nat)
    (h : sh.getD i none = some v) :
    (rs.parityFillStep parities k sh j).getD i none = some v := by
  unfold rs.parityFillStep
  cases hj : sh.getD (k + j) none with
  | some w => exact h
  | none =>
    by_cases hij : k + j = i
    · rw [hij] at hj; rw [h] at hj; cases hj
    · show (sh.set (k + j) (some (parities.getD j []))).getD i none = some v
      rw [getD_set_ne sh (k + j) i _ none hij]; exact h

theorem pfold_frame (parities : List (List Nat)) (k : Nat) (l : List Nat)
    (sh : List (Option (List Nat))) (i : Nat) (v : List Nat)
    (h : sh.getD i none = some v) :
    (l.foldl (rs.parityFillStep parities k) sh).getD i none = some v := by
  induction l generalizing sh with
  | nil => exact h
  | cons j rest ih =>
    rw [List.foldl_cons]
    exact ih _ (parityFillStep_frame parities k sh j i v h)

theorem pfold_isSome (parities : List (List Nat)) (k : Nat) (l : List Nat)
    (sh : List (Option (List Nat))) (i : Nat) (h : (sh.getD i none).isSome) :
    ((l.foldl (rs.parityFillStep parities k) sh).getD i none).isSome := by
  obtain ⟨v, hv⟩ := Option.isSome_iff_exists.mp h
  rw [pfold_frame parities k l sh i v hv]
  rfl

theorem pfold_covers (parities : List (List Nat)) (k : Nat) (l : List Nat)
    (sh : List (Option (List Nat))) (r : Nat) (hr : k + r < sh.length) (hmem : r ∈ l) :
    ((l.foldl (rs.parityFillStep parities k) sh).getD (k + r) none).isSome := by
  induction l generalizing sh with
  | nil => simp at hmem
  | cons j rest ih =>
    rw [List.foldl_cons]
    rcases List.mem_cons.mp hmem with h1 | h2
    · subst h1
      apply pfold_isSome
      unfold rs.parityFillStep
      cases hj : sh.getD (k + r) none with
      | some w =>
        show (sh.getD (k + r) none).isSome = true
        rw [hj]; rfl
      | none =>
        show ((sh.set (k + r) (some (parities.getD r []))).getD (k + r) none).isSome = true
        rw [getD_set_self sh (k + r) _ none hr]; rfl
    · refine ih _ ?_ h2
      rw [parityFillStep_length]
      exact hr

theorem sfold_length (pairs : List (Nat × List Nat)) (sh : List (Option (List Nat))) :
    (pairs.foldl (fun sh p => sh.set p.1 (some p.2)) sh).length = sh.length := by
  induction pairs generalizing sh with
  | nil => rfl
  | cons q rest ih => rw [List.foldl_cons, ih, List.length_set]

theorem sfold_frame (pairs : List (Nat × List Nat)) (sh : List (Option (List Nat)))
    (i : Nat) (v : List Nat) (hp : ∀ p ∈ pairs, p.1 ≠ i)
    (h : sh.getD i none = some v) :
    (pairs.foldl (fun sh p => sh.set p.1 (some p.2)) sh).getD i none = some v := by
  induction pairs generalizing sh with
  | nil => exact h
  | cons q rest ih =>
    rw [List.foldl_cons]
    refine ih _ (fun p hmem => hp p (List.mem_cons_of_mem q hmem)) ?_
    rw [getD_set_ne sh q.1 i _ none (hp q (List.mem_cons_self q rest))]
    exact h

theorem sfold_isSome (pairs : List (Nat × List Nat)) (sh : List (Option (List Nat)))
    (i : Nat) (h : (sh.getD i none).isSome) :
    ((pairs.foldl (fun sh p => sh.set p.1 (some p.2)) sh).getD i none).isSome := by
  induction pairs generalizing sh with
  | nil => exact h
  | cons q rest ih =>
    rw [List.foldl_cons]
    apply ih
    by_cases hqi : q.1 = i
    · rw [hqi, getD_set_self sh i _ none (isSome_getD_lt sh i h)]; rfl
    · rw [getD_set_ne sh q.1 i _ none hqi]; exact h

theorem sfold_covers (pairs : List (Nat × List Nat)) (sh : List (Option (List Nat)))
    (i : Nat) (sd : List Nat) (hi : i < sh.length) (hmem : (i, sd) ∈ pairs) :
    ((pairs.foldl (fun sh p => sh.set p.1 (some p.2)) sh).getD i none).isSome := by
  induction pairs generalizing sh with
  | nil => simp at hmem
  | cons q rest ih =>
    rw [List.foldl_cons]
    rcases List.mem_cons.mp hmem with h1 | h2
    · apply sfold_isSome
      have : q.1 = i := by rw [← h1]
      rw [this, getD_set_self sh i _ none hi]
      rfl
    · exact ih _ (by rw [List.length_set]; exact hi) h2

/-! ### Vandermonde shapes -/

theorem vand_rs_length (k m : Nat) : (rs.build_vandermonde k m).length = m := by
  simp [rs.build_vandermonde]

theorem vand_rs_row_length (k m : Nat) :
    ∀ row ∈ rs.build_vandermonde k m, row.length = k := by
  intro row hrow
  simp only [rs.build_vandermonde, List.mem_map] at hrow
  obtain ⟨r, _, rfl⟩ := hrow
  simp

theorem vand_codec_length (gf : Gf256) (k m : Nat) :
    (codec.build_vandermonde gf k m).length = m := by
  simp [codec.build_vandermonde]

theorem vand_codec_row_length (gf : Gf256) (k m : Nat) :
    ∀ row ∈ codec.build_vandermonde gf k m, row.length = k := by
  intro row hrow
  simp only [codec.build_vandermonde, List.mem_map] at hrow
  obtain ⟨r, _, rfl⟩ := hrow
  simp

/-! ### Reconstruction walk lemmas (rs variant) -/

theorem survivorMatrix_range (vand : List (List Nat)) (k : Nat) :
    survivorMatrix vand k (List.range k) = idMatrix k := by
  simp only [survivorMatrix, idMatrix]
  apply List.map_congr_left
  intro r hr
  have hrk := List.mem_range.mp hr
  rw [getD_range, if_pos hrk, if_pos hrk]

theorem rs_reconstruct_no_shards (gf : Gf256) (k m : Nat)
    (shards : List (Option (List Nat)))
    (hlen : shards.length = k + m) (hnone : ∀ s ∈ shards, s = none) :
    rs.shard_reconstruction gf k m shards =
      .error "No shards available to determine length" := by
  have hfind : shards.findSome? (fun s => s.map List.length) = none := by
    rw [List.findSome?_eq_none_iff]
    intro x hx
    rw [hnone x hx]
    rfl
  simp only [rs.shard_reconstruction, hfind]
  rw [if_neg (by omega)]

theorem rs_reconstruct_insufficient (gf : Gf256) (k m : Nat)
    (shards : List (Option (List Nat)))
    (hlen : shards.length = k + m)
    (hcount : ((List.range (k + m)).filter (fun i => (shards.getD i none).isSome)).length < k)
    (hsome : ∃ s ∈ shards, s.isSome) :
    rs.shard_reconstruction gf k m shards =
      .error ("Not enough shards to reconstruct: have " ++
        toString ((List.range (k + m)).filter
          (fun i => (shards.getD i none).isSome)).length ++ ", need " ++ toString k) := by
  obtain ⟨s, hmem, hs⟩ := hsome
  obtain ⟨L, hL⟩ := Option.isSome_iff_exists.mp (findSome_isSome_of_mem shards s hmem hs)
  simp only [rs.shard_reconstruction, hL]
  rw [if_neg (by omega), if_pos hcount]

theorem rs_reconstruct_ok_props (gf : Gf256) (k m : Nat)
    (shards out : List (Option (List Nat)))
    (h : rs.shard_reconstruction gf k m shards = .ok out) :
    out.length = shards.length ∧
    (∀ i, i < out.length → (out.getD i none).isSome) ∧
    (∀ i v, shards.getD i none = some v → out.getD i none = some v) := by
  simp only [rs.shard_reconstruction] at h
  split at h
  · exact absurd h (by simp)
  · rename_i hn
    split at h
    · exact absurd h (by simp)
    · rename_i L hfs
      split at h
      · exact absurd h (by simp)
      · rename_i hp
        split at h
        · exact absurd h (by simp)
        · rename_i a_inv hinv
          split at h
          · exact absurd h (by simp)
          · rename_i parities henc
            have hout := (Except.ok.inj h).symm
            subst hout
            have hlen : shards.length = k + m := by omega
            refine ⟨?_, ?_, ?_⟩
            · rw [pfold_length, fillfold_length]
            · intro i hi
              rw [pfold_length, fillfold_length] at hi
              have hi' : i < shards.length := hi
              by_cases hik : i < k
              · apply pfold_isSome
                exact fillfold_covers (List.range k) _ i (show i < shards.length from hi')
                  (List.mem_range.mpr hik)
              · have : i = k + (i - k) := by omega
                rw [this]
                apply pfold_covers
                · rw [fillfold_length]
                  show k + (i - k) < shards.length
                  omega
                · exact List.mem_range.mpr (by omega)
            · intro i v hv
              exact pfold_frame _ _ _ _ i v (fillfold_frame _ _ i v hv)

theorem rs_reconstruct_full (k m L : Nat) (shards : List (Option (List Nat)))
    (hk : 1 ≤ k)
    (hlen : shards.length = k + m)
    (hfull : ∀ s ∈ shards, s.isSome ∧ (s.getD []).length = L) :
    rs.shard_reconstruction gfT k m shards = .ok shards := by
  have hslot : ∀ i, i < k + m → ∃ v, shards.getD i none = some v ∧ v.length = L := by
    intro i hi
    have hmem := getD_mem shards i none (by omega)
    obtain ⟨v, hv⟩ := Option.isSome_iff_exists.mp (hfull _ hmem).1
    refine ⟨v, hv, ?_⟩
    have := (hfull _ hmem).2
    rw [hv] at this
    simpa using this
  have hne : shards ≠ [] := by
    intro hc
    rw [hc] at hlen
    simp at hlen
    omega
  have hfind := findSome_len_of_full shards L hne hfull
  have hpres : (List.range (k + m)).filter (fun i => (shards.getD i none).isSome) =
      List.range (k + m) := by
    rw [List.filter_eq_self]
    intro i hi
    exact (hfull _ (getD_mem shards i none
      (by have := List.mem_range.mp hi; omega))).1
  have hmiss : (List.range k).filter (fun i => (shards.getD i none).isNone) = [] := by
    rw [List.filter_eq_nil_iff]
    intro i hi
    obtain ⟨v, hv, _⟩ := hslot i (by have := List.mem_range.mp hi; omega)
    rw [hv]
    simp
  simp only [rs.shard_reconstruction, hfind, hpres, hmiss]
  rw [if_neg (show ¬(k + m ≠ shards.length) by omega)]
  rw [if_neg (by rw [List.length_range]; omega)]
  rw [List.take_range, Nat.min_eq_left (by omega), survivorMatrix_range,
    invert_idMatrix k hk]
  simp only [Except.mapError, List.map_nil]
  have hffold : (List.range k).foldl rs.fillStep (shards, ([] : List (List Nat))) =
      (shards, ([] : List (List Nat))) := by
    apply foldl_fixed
    intro i hi
    obtain ⟨v, hv, _⟩ := hslot i (by have := List.mem_range.mp hi; omega)
    simp only [rs.fillStep, hv]
  rw [hffold]
  have hvk : (rs.build_vandermonde k m).length ≠ 0 →
      ((rs.build_vandermonde k m).headD []).length =
      ((List.range k).map (fun i => (shards.getD i none).getD [])).length := by
    intro hm
    rw [vand_rs_length] at hm
    simp only [rs.build_vandermonde]
    rw [headD_map_range _ m [] (by omega)]
    simp
  have hdlen : ∀ ds ∈ (List.range k).map (fun i => (shards.getD i none).getD []),
      ds.length = (((List.range k).map (fun i => (shards.getD i none).getD [])).headD []).length := by
    intro ds hds
    rw [List.mem_map] at hds
    obtain ⟨i, hi, rfl⟩ := hds
    obtain ⟨v, hv, hvl⟩ := hslot i (by have := List.mem_range.mp hi; omega)
    rw [headD_map_range _ k [] (by omega)]
    obtain ⟨v0, hv0, hv0l⟩ := hslot 0 (by omega)
    rw [hv, hv0]
    simp [hvl, hv0l]
  obtain ⟨P, hP, hPlen⟩ := shard_encoding_ok gfT (rs.build_vandermonde k m)
    ((List.range k).map (fun i => (shards.getD i none).getD [])) hvk hdlen
  rw [hP]
  simp only
  congr 1
  apply foldl_fixed
  intro r hr
  obtain ⟨v, hv, _⟩ := hslot (k + r) (by have := List.mem_range.mp hr; omega)
  simp only [rs.parityFillStep, hv]

/-! ### Reconstruction walk lemmas (codec variant) -/

theorem codec_new_k (k m : Nat) : (codec.Codec.new k m).k = k := rfl

theorem codec_new_m (k m : Nat) : (codec.Codec.new k m).m = m := rfl

theorem codec_new_n (k m : Nat) : (codec.Codec.new k m).n = k + m := rfl

theorem codec_new_gf (k m : Nat) : (codec.Codec.new k m).gf = Gf256.new := rfl

theorem codec_new_matrix (k m : Nat) :
    (codec.Codec.new k m).encode_matrix = codec.build_vandermonde Gf256.new k m := rfl

theorem codec_reconstruct_no_shards (k m : Nat)
    (cache : List (List Nat × List (List Nat))) (shards : List (Option (List Nat)))
    (hlen : shards.length = k + m) (hnone : ∀ s ∈ shards, s = none) :
    (codec.Codec.new k m).reconstruct cache shards =
      .error "No shards available to determine length" := by
  have hfind : shards.findSome? (fun s => s.map List.length) = none := by
    rw [List.findSome?_eq_none_iff]
    intro x hx
    rw [hnone x hx]
    rfl
  simp only [codec.Codec.reconstruct, codec_new_n, codec_new_k, hfind]
  rw [if_neg (by omega)]

theorem codec_reconstruct_insufficient (k m : Nat)
    (cache : List (List Nat × List (List Nat))) (shards : List (Option (List Nat)))
    (hlen : shards.length = k + m)
    (hcount : ((List.range (k + m)).filter (fun i => (shards.getD i none).isSome)).length < k)
    (hsome : ∃ s ∈ shards, s.isSome) :
    (codec.Codec.new k m).reconstruct cache shards =
      .error ("Not enough shards to reconstruct: have " ++
        toString ((List.range (k + m)).filter
          (fun i => (shards.getD i none).isSome)).length ++ ", need " ++ toString k) := by
  obtain ⟨s, hmem, hs⟩ := hsome
  obtain ⟨L, hL⟩ := Option.isSome_iff_exists.mp (findSome_isSome_of_mem shards s hmem hs)
  simp only [codec.Codec.reconstruct, codec_new_n, codec_new_k, hL]
  rw [if_neg (by omega), if_pos hcount]

theorem codec_reconstruct_ok_props (c : codec.Codec)
    (cache : List (List Nat × List (List Nat)))
    (shards out : List (Option (List Nat)))
    (h : c.reconstruct cache shards = .ok out) :
    out.length = shards.length ∧
    (∀ i, i < out.length → (out.getD i none).isSome) ∧
    (∀ i v, shards.getD i none = some v → out.getD i none = some v) := by
  simp only [codec.Codec.reconstruct] at h
  split at h
  · exact absurd h (by simp)
  · rename_i hn
    split at h
    · exact absurd h (by simp)
    · rename_i L hfs
      split at h
      · exact absurd h (by simp)
      · rename_i hp
        split at h
        · exact absurd h (by simp)
        · rename_i a_inv hinv
          split at h
          · rename_i hempty
            have hout := Except.ok.inj h
            subst hout
            have hmiss : (List.range c.n).filter
                (fun i => (shards.getD i none).isNone) = [] := by
              rwa [← List.isEmpty_iff]
            refine ⟨rfl, ?_, fun i v hv => hv⟩
            intro i hi
            have hin : i ∈ List.range c.n := List.mem_range.mpr (by omega)
            by_contra hc
            have hisn : (shards.getD i none).isNone = true := by
              cases hx : shards.getD i none with
              | none => rfl
              | some v => rw [hx] at hc; simp at hc
            have hmem : i ∈ (List.range c.n).filter
                (fun i => (shards.getD i none).isNone) :=
              List.mem_filter.mpr ⟨hin, hisn⟩
            rw [hmiss] at hmem
            simp at hmem
          · rename_i hempty
            suffices haux : ∀ (pairs : List (Nat × List Nat)),
                (∀ p ∈ pairs, p.1 ∈ (List.range c.n).filter
                  (fun i => (shards.getD i none).isNone)) →
                (∀ mi ∈ (List.range c.n).filter
                  (fun i => (shards.getD i none).isNone), ∃ sd, (mi, sd) ∈ pairs) →
                (Except.ok (pairs.foldl (fun sh p => sh.set p.1 (some p.2)) shards) :
                  Except String (List (Option (List Nat)))) = .ok out →
                out.length = shards.length ∧
                (∀ i, i < out.length → (out.getD i none).isSome) ∧
                (∀ i v, shards.getD i none = some v → out.getD i none = some v) by
              refine haux _ ?_ ?_ h
              · intro p hp
                rw [List.mem_map] at hp
                obtain ⟨mi, hmi, heq⟩ := hp
                rw [← heq]
                exact hmi
              · intro mi hmi
                exact ⟨_, List.mem_map_of_mem _ hmi⟩
            intro pairs hp1 hp2 hh
            have hout := Except.ok.inj hh
            subst hout
            have hpnone : ∀ p ∈ pairs, shards.getD p.1 none = none := by
              intro p hp
              exact Option.isNone_iff_eq_none.mp (List.mem_filter.mp (hp1 p hp)).2
            refine ⟨sfold_length pairs shards, ?_, ?_⟩
            · intro i hi
              rw [sfold_length] at hi
              cases hx : shards.getD i none with
              | some v =>
                apply sfold_isSome
                rw [hx]
                rfl
              | none =>
                have hin : i ∈ (List.range c.n).filter
                    (fun j => (shards.getD j none).isNone) := by
                  refine List.mem_filter.mpr ⟨List.mem_range.mpr (by omega), by rw [hx]; rfl⟩
                obtain ⟨sd, hsd⟩ := hp2 i hin
                exact sfold_covers pairs shards i sd hi hsd
            · intro i v hv
              refine sfold_frame pairs shards i v ?_ hv
              intro p hp hpc
              have := hpnone p hp
              rw [hpc, hv] at this
              cases this

theorem codec_reconstruct_full (k m L : Nat)
    (cache : List (List Nat × List (List Nat))) (shards : List (Option (List Nat)))
    (hk : 1 ≤ k) (hlen : shards.length = k + m)
    (hfull : ∀ s ∈ shards, s.isSome ∧ (s.getD []).length = L) :
    (codec.Codec.new k m).reconstruct cache shards = .ok shards := by
  have hne : shards ≠ [] := by
    intro hc
    rw [hc] at hlen
    simp at hlen
    omega
  have hfind := findSome_len_of_full shards L hne hfull
  have hpres : (List.range (k + m)).filter (fun i => (shards.getD i none).isSome) =
      List.range (k + m) := by
    rw [List.filter_eq_self]
    intro i hi
    exact (hfull _ (getD_mem shards i none
      (by have := List.mem_range.mp hi; omega))).1
  have hmiss : (List.range (k + m)).filter (fun i => (shards.getD i none).isNone) = [] := by
    rw [List.filter_eq_nil_iff]
    intro i hi
    obtain ⟨v, hv⟩ := Option.isSome_iff_exists.mp
      (hfull _ (getD_mem shards i none (by have := List.mem_range.mp hi; omega))).1
    rw [hv]
    simp
  simp only [codec.Codec.reconstruct, codec_new_n, codec_new_k, codec_new_gf,
    codec_new_matrix, hfind, hpres, hmiss]
  rw [if_neg (show ¬(k + m ≠ shards.length) by omega)]
  rw [if_neg (by rw [List.length_range]; omega)]
  rw [List.take_range, Nat.min_eq_left (by omega)]
  simp only [codec.Codec.get_or_compute_inverse_matrix, codec_new_k, codec_new_gf,
    codec_new_matrix, survivorMatrix_range]
  cases hlu : cache.lookup (codec.sortKey (List.range k)) with
  | some cached =>
    simp [hlu]
  | none =>
    simp only [hlu, gf_new_eq, invert_idMatrix k hk, Except.mapError]
    simp

/-! ### Claim theorems -/

/-- C2 (amended): the codec variant satisfies the claimed formula:
`build_vandermonde(k, m)[r][c] = exp[((r + k) · c) mod 255] = α^(((r+k)·c) mod 255)`
for all `r < m`, `c < k`.  (The rs variant computes `(r+1)^c` instead; see the
counterexample.) -/
theorem C2_codec_vandermonde_formula (k m r c : Nat) (hr : r < m) (hc : c < k) :
    ((codec.build_vandermonde Gf256.new k m).getD r []).getD c 0 =
      Gf256.new.exp.getD (((r + k) * c) % 255) 0 ∧
    ((codec.build_vandermonde Gf256.new k m).getD r []).getD c 0 =
      gfPow Gf256.new (((r + k) * c) % 255) := by
  have hentry : ((codec.build_vandermonde Gf256.new k m).getD r []).getD c 0 =
      Gf256.new.exp.getD (((r + k) * c) % 255) 0 := by
    simp only [codec.build_vandermonde]
    rw [getD_map_range, if_pos hr, getD_map_range, if_pos hc]
  refine ⟨hentry, ?_⟩
  rw [hentry, gf_new_eq]
  exact exp_pow_T (((r + k) * c) % 255) (Nat.mod_lt _ (by omega))

/-- C2 counterexample: the rs variant `build_vandermonde(2, 1)` has entry
`V[0][1] = (0+1)^1 = 1`, not `exp[((0 + 2) · 1) mod 255] = 4` as the claim
states for every `build_vandermonde` in the source. -/
theorem C2_cex_rs_vandermonde :
    ((rs.build_vandermonde 2 1).getD 0 []).getD 1 0 ≠
      Gf256.new.exp.getD (((0 + 2) * 1) % 255) 0 := by
  have hv : rs.build_vandermonde 2 1 = [[1, 1]] := by
    simp only [rs.build_vandermonde, gf_new_eq]
    decide
  rw [hv, gf_new_eq]
  decide

/-- C2 witness: the theorem applied at `k = 2`, `m = 1`, `r = 0`, `c = 1`. -/
theorem C2_witness :
    ((codec.build_vandermonde Gf256.new 2 1).getD 0 []).getD 1 0 =
      Gf256.new.exp.getD (((0 + 2) * 1) % 255) 0 ∧
    ((codec.build_vandermonde Gf256.new 2 1).getD 0 []).getD 1 0 =
      gfPow Gf256.new (((0 + 2) * 1) % 255) :=
  C2_codec_vandermonde_formula 2 1 0 1 (by decide) (by decide)

/-- C3 (amended): `handle_encode` rejects its parameters with the
`InvalidParameters` error exactly when `k = 0`, `m = 0`, or `k + m > 256`;
in particular `k + m = 256` is accepted. -/
theorem C3_param_check_bound_256 (k m : Nat) :
    (handle_encode_param_check k m =
        .error "Invalid k/m values. Must be > 0 and k+m <= 256" ↔
      (k = 0 ∨ m = 0 ∨ 256 < k + m)) ∧
    (handle_encode_param_check k m = .ok () ↔ ¬(k = 0 ∨ m = 0 ∨ 256 < k + m)) := by
  unfold handle_encode_param_check
  by_cases h : k = 0 ∨ m = 0 ∨ k + m > 256
  · rw [if_pos h]
    constructor
    · exact ⟨fun _ => h, fun _ => rfl⟩
    · exact ⟨fun hc => absurd hc (by simp), fun hc => absurd h hc⟩
  · rw [if_neg h]
    constructor
    · exact ⟨fun hc => absurd hc (by simp), fun hc => absurd hc h⟩
    · exact ⟨fun _ => h, fun _ => rfl⟩

/-- C3 counterexample: `k = 128`, `m = 128` has `k + m = 256 > 255`, yet the
parameter check accepts it, contradicting the claim that `k + m = 256` fails
with `InvalidParameters`. -/
theorem C3_cex_k_plus_m_256_accepted :
    handle_encode_param_check 128 128 = .ok () ∧ 255 < 128 + 128 :=
  ⟨rfl, by decide⟩

/-- C3 witness: the theorem applied at `k = 0`, `m = 4` (rejected) — both
directions evaluated. -/
theorem C3_witness :
    handle_encode_param_check 0 4 =
      .error "Invalid k/m values. Must be > 0 and k+m <= 256" :=
  (C3_param_check_bound_256 0 4).1.mpr (Or.inl rfl)

/-- C4: for a coding matrix `V` (first-row width `k` matching the shard count)
and data shards of equal length whose entries are bytes, `shard_encoding`
returns exactly the reference parity matrix
`P[r][t] = XOR over c in [0,k) of mul(V[r][c], D[c][t])`: the
skip-on-0 / plain-XOR-on-1 fast paths produce the bytes of the formula. -/
theorem C4_encoding_matches_formula (V D : List (List Nat))
    (hk : (V.headD []).length = D.length)
    (hds : ∀ ds ∈ D, ds.length = (D.headD []).length ∧ ∀ b ∈ ds, b < 256) :
    rs.shard_encoding Gf256.new V D =
      .ok (parity_matrix_formula Gf256.new V D V.length (V.headD []).length
        (D.headD []).length) := by
  rw [gf_new_eq]
  exact shard_encoding_formula V D hk hds

/-- C4 witness: the theorem applied at `V = [[1,2],[0,1]]`, `D = [[1,2],[3,4]]`. -/
theorem C4_witness :
    rs.shard_encoding Gf256.new [[1, 2], [0, 1]] [[1, 2], [3, 4]] =
      .ok (parity_matrix_formula Gf256.new [[1, 2], [0, 1]] [[1, 2], [3, 4]] 2 2 2) :=
  C4_encoding_matches_formula [[1, 2], [0, 1]] [[1, 2], [3, 4]] (by decide)
    (by decide)

/-- C5 (amended): reconstruction fails whenever fewer than `k` slots are
present — with the `Insufficient` (not-enough-shards) error when at least one
slot is present, and with the no-shards-available error when no slot is
present — and on any successful return every slot is non-empty.  Both source
variants are covered. -/
theorem C5_reconstruct_failure_modes (k m : Nat)
    (cache : List (List Nat × List (List Nat))) (shards : List (Option (List Nat)))
    (hlen : shards.length = k + m) :
    ((∀ s ∈ shards, s = none) →
      rs.shard_reconstruction Gf256.new k m shards =
        .error "No shards available to determine length" ∧
      (codec.Codec.new k m).reconstruct cache shards =
        .error "No shards available to determine length") ∧
    ((((List.range (k + m)).filter (fun i => (shards.getD i none).isSome)).length < k ∧
        ∃ s ∈ shards, s.isSome) →
      rs.shard_reconstruction Gf256.new k m shards =
        .error ("Not enough shards to reconstruct: have " ++
          toString ((List.range (k + m)).filter
            (fun i => (shards.getD i none).isSome)).length ++ ", need " ++ toString k) ∧
      (codec.Codec.new k m).reconstruct cache shards =
        .error ("Not enough shards to reconstruct: have " ++
          toString ((List.range (k + m)).filter
            (fun i => (shards.getD i none).isSome)).length ++ ", need " ++ toString k)) ∧
    (∀ out, rs.shard_reconstruction Gf256.new k m shards = .ok out →
      ∀ i, i < out.length → (out.getD i none).isSome) ∧
    (∀ out, (codec.Codec.new k m).reconstruct cache shards = .ok out →
      ∀ i, i < out.length → (out.getD i none).isSome) := by
  refine ⟨?_, ?_, ?_, ?_⟩
  · intro hnone
    exact ⟨rs_reconstruct_no_shards Gf256.new k m shards hlen hnone,
      codec_reconstruct_no_shards k m cache shards hlen hnone⟩
  · intro ⟨hcount, hsome⟩
    exact ⟨rs_reconstruct_insufficient Gf256.new k m shards hlen hcount hsome,
      codec_reconstruct_insufficient k m cache shards hlen hcount hsome⟩
  · intro out hout
    exact (rs_reconstruct_ok_props Gf256.new k m shards out hout).2.1
  · intro out hout
    exact (codec_reconstruct_ok_props (codec.Codec.new k m) cache shards out hout).2.1

/-- C5 counterexample: on the all-empty two-slot vector with `k = m = 1`, both
reconstructors fail with the no-shards-available error, which is not the
`Insufficient` (not-enough-shards) error the claim names for that vector. -/
theorem C5_cex_all_empty_error :
    rs.shard_reconstruction Gf256.new 1 1 [none, none] =
      .error "No shards available to determine length" ∧
    (codec.Codec.new 1 1).reconstruct [] [none, none] =
      .error "No shards available to determine length" ∧
    "No shards available to determine length" ≠
      "Not enough shards to reconstruct: have 0, need 1" := by
  refine ⟨rs_reconstruct_no_shards Gf256.new 1 1 [none, none] rfl (by decide),
    codec_reconstruct_no_shards 1 1 [] [none, none] rfl (by decide), by decide⟩

/-- C5 witness: the theorem applied at `k = 2`, `m = 1`,
`shards = [some [5], none, none]` (one present slot, fewer than k). -/
theorem C5_witness :
    rs.shard_reconstruction Gf256.new 2 1 [some [5], none, none] =
      .error "Not enough shards to reconstruct: have 1, need 2" ∧
    (codec.Codec.new 2 1).reconstruct [] [some [5], none, none] =
      .error "Not enough shards to reconstruct: have 1, need 2" := by
  have h := (C5_reconstruct_failure_modes 2 1 [] [some [5], none, none] rfl).2.1
    ⟨by decide, ⟨some [5], by decide, rfl⟩⟩
  exact h

/-- C6 (amended): `shard_encoding` fails with the mismatched-length
`ShapeError` exactly when (the matrix being nonempty and its first-row width
matching the shard count) the data shards do not all share the first shard's
length; but a matrix with no rows yields `Ok []`, not a `ShapeError`. -/
theorem C6_encoding_shape_errors (gf : Gf256) (matrix D : List (List Nat)) :
    (matrix.length = 0 → rs.shard_encoding gf matrix D = .ok []) ∧
    (0 < matrix.length → (matrix.headD []).length = D.length →
      (rs.shard_encoding gf matrix D =
          .error "All data shards must have the same length" ↔
        D.any (fun s => s.length != (D.headD []).length) = true)) := by
  constructor
  · intro hm
    simp only [rs.shard_encoding]
    rw [if_pos hm]
  · intro hm hk
    simp only [rs.shard_encoding]
    rw [if_neg (by omega), if_neg (fun hc => hc hk)]
    by_cases hany : D.any (fun s => s.length != (D.headD []).length) = true
    · rw [if_pos hany]
      exact ⟨fun _ => hany, fun _ => rfl⟩
    · rw [if_neg hany]
      constructor
      · intro hc
        exact absurd hc (by simp)
      · intro hc
        exact absurd hc hany

/-- C6 counterexample: `shard_encoding` with an empty coding matrix returns
`Ok []` instead of failing with a `ShapeError` as the claim states. -/
theorem C6_cex_empty_matrix_ok :
    rs.shard_encoding Gf256.new [] [[1]] = .ok [] := rfl

/-- C6 witness: the theorem applied at a nonempty matrix with mismatched
shard lengths. -/
theorem C6_witness :
    rs.shard_encoding Gf256.new [[1, 2]] [[1], [2, 3]] =
      .error "All data shards must have the same length" :=
  ((C6_encoding_shape_errors Gf256.new [[1, 2]] [[1], [2, 3]]).2 (by decide)
    (by decide)).mpr (by decide)

/-- C7: for all bytes `a, b`: `mul(a,b) = mul(b,a)`, `mul(a,0) = 0`,
`mul(a,1) = a`; and for nonzero bytes `a`: `inv(a)` succeeds with a value `b`
such that `mul(a,b) = 1` and `inv(b)` succeeds with value `a`
(i.e. `mul(a, inv(a)) = 1` and `inv(inv(a)) = a`). -/
theorem C7_field_algebra (a b : Nat) (ha : a ≤ 255) (hb : b ≤ 255) :
    (Gf256.new.mul a b = Gf256.new.mul b a ∧
     Gf256.new.mul a 0 = 0 ∧
     Gf256.new.mul a 1 = a) ∧
    (1 ≤ a →
      Gf256.new.inv a = .ok (gfInv Gf256.new a) ∧
      Gf256.new.mul a (gfInv Gf256.new a) = 1 ∧
      Gf256.new.inv (gfInv Gf256.new a) = .ok a) := by
  constructor
  · refine ⟨mul_comm_gf Gf256.new a b, mul_a_zero Gf256.new a, ?_⟩
    rw [gf_new_eq]
    exact mul_one_right_T a (by omega)
  · intro ha1
    have hane : a ≠ 0 := by omega
    rw [gf_new_eq]
    have hval := inv_val_T a (by omega) hane
    refine ⟨inv_eq_ok gfT a hane, mul_inv_T a (by omega) hane, ?_⟩
    rw [inv_eq_ok gfT (gfInv gfT a) hval.1, inv_inv_T a (by omega) hane]

/-- C7 witness: the theorem applied at `a = 3`, `b = 7`. -/
theorem C7_witness :
    (Gf256.new.mul 3 7 = Gf256.new.mul 7 3 ∧
     Gf256.new.mul 3 0 = 0 ∧
     Gf256.new.mul 3 1 = 3) ∧
    (1 ≤ 3 →
      Gf256.new.inv 3 = .ok (gfInv Gf256.new 3) ∧
      Gf256.new.mul 3 (gfInv Gf256.new 3) = 1 ∧
      Gf256.new.inv (gfInv Gf256.new 3) = .ok 3) :=
  C7_field_algebra 3 7 (by decide) (by decide)

/-- C8: calling reconstruction on a shard vector in which every slot is
present (holding byte sequences of the common shard length) succeeds and
returns the vector unchanged, for both source variants (the codec variant
with any cache contents). -/
theorem C8_reconstruct_idempotent_on_full (k m L : Nat)
    (cache : List (List Nat × List (List Nat))) (shards : List (Option (List Nat)))
    (hk : 1 ≤ k) (hlen : shards.length = k + m)
    (hfull : ∀ s ∈ shards, s.isSome ∧ (s.getD []).length = L) :
    rs.shard_reconstruction Gf256.new k m shards = .ok shards ∧
    (codec.Codec.new k m).reconstruct cache shards = .ok shards := by
  constructor
  · rw [gf_new_eq]
    exact rs_reconstruct_full k m L shards hk hlen hfull
  · exact codec_reconstruct_full k m L cache shards hk hlen hfull

/-- C8 witness: the theorem applied at `k = m = 1`, `shards = [some [7], some [7]]`. -/
theorem C8_witness :
    rs.shard_reconstruction Gf256.new 1 1 [some [7], some [7]] =
      .ok [some [7], some [7]] ∧
    (codec.Codec.new 1 1).reconstruct [] [some [7], some [7]] =
      .ok [some [7], some [7]] :=
  C8_reconstruct_idempotent_on_full 1 1 1 [] [some [7], some [7]] (by decide) rfl
    (by decide)

/-- C9: whenever reconstruction returns success, every slot that was present
on entry holds exactly the same byte sequence on return; only empty slots are
written.  Stated for both variants, any field, any codec, any cache. -/
theorem C9_reconstruct_frame (gf : Gf256) (k m : Nat) (c : codec.Codec)
    (cache : List (List Nat × List (List Nat)))
    (shards out out' : List (Option (List Nat))) :
    (rs.shard_reconstruction gf k m shards = .ok out →
      ∀ i v, shards.getD i none = some v → out.getD i none = some v) ∧
    (c.reconstruct cache shards = .ok out' →
      ∀ i v, shards.getD i none = some v → out'.getD i none = some v) := by
  constructor
  · intro hout i v hv
    exact (rs_reconstruct_ok_props gf k m shards out hout).2.2 i v hv
  · intro hout i v hv
    exact (codec_reconstruct_ok_props c cache shards out' hout).2.2 i v hv

/-- C10: for nonzero bytes `a, b`, the tables are indexed only within bounds:
`log` has length 256 and is read at `a ≤ 255`; `log[a] ∈ [0, 254]`; the sum of
two logs lies in `[0, 508]`, below the `exp` length 512; and `255 − log[a]`
lies in `[1, 255]`, also below 512 — so `mul`, `inv` and `mul_table` never
index out of range. -/
theorem C10_table_index_bounds (a b : Nat)
    (ha1 : 1 ≤ a) (ha : a ≤ 255) (hb1 : 1 ≤ b) (hb : b ≤ 255) :
    Gf256.new.exp.length = 512 ∧
    Gf256.new.log.length = 256 ∧
    a < Gf256.new.log.length ∧
    0 ≤ Gf256.new.log.getD a 0 ∧ Gf256.new.log.getD a 0 ≤ 254 ∧
    0 ≤ Gf256.new.log.getD a 0 + Gf256.new.log.getD b 0 ∧
    (Gf256.new.log.getD a 0 + Gf256.new.log.getD b 0).toNat ≤ 508 ∧
    (Gf256.new.log.getD a 0 + Gf256.new.log.getD b 0).toNat < Gf256.new.exp.length ∧
    1 ≤ (255 - Gf256.new.log.getD a 0).toNat ∧
    (255 - Gf256.new.log.getD a 0).toNat ≤ 255 ∧
    (255 - Gf256.new.log.getD a 0).toNat < Gf256.new.exp.length := by
  rw [gf_new_eq]
  have hla := log_range_T a (by omega) (by omega)
  have hlb := log_range_T b (by omega) (by omega)
  have hel := exp_len_T
  have hll := log_len_T
  refine ⟨hel, hll, by omega, hla.1, hla.2, by omega, by omega, ?_, by omega, by omega, ?_⟩
  · rw [hel]; omega
  · rw [hel]; omega

/-- C10 witness: the theorem applied at `a = 3`, `b = 255`. -/
theorem C10_witness :
    Gf256.new.exp.length = 512 ∧
    Gf256.new.log.length = 256 ∧
    3 < Gf256.new.log.length ∧
    0 ≤ Gf256.new.log.getD 3 0 ∧ Gf256.new.log.getD 3 0 ≤ 254 ∧
    0 ≤ Gf256.new.log.getD 3 0 + Gf256.new.log.getD 255 0 ∧
    (Gf256.new.log.getD 3 0 + Gf256.new.log.getD 255 0).toNat ≤ 508 ∧
    (Gf256.new.log.getD 3 0 + Gf256.new.log.getD 255 0).toNat < Gf256.new.exp.length ∧
    1 ≤ (255 - Gf256.new.log.getD 3 0).toNat ∧
    (255 - Gf256.new.log.getD 3 0).toNat ≤ 255 ∧
    (255 - Gf256.new.log.getD 3 0).toNat < Gf256.new.exp.length :=
  C10_table_index_bounds 3 255 (by decide) (by decide) (by decide) (by decide)

/-- C1 (code bug): the claimed universal round-trip fails inside the stated
parameter range.  With `k = 4`, `m = 3` (so `1 ≤ k, m ≤ 32`, `k + m ≤ 255`),
the 4-byte file `[1, 2, 3, 4]` encodes to the parity shards `[[4], [41], [52]]`;
erasing the slots `{0, 1, 3}` (3 ≤ m of them) leaves the survivors
`{2, 4, 5, 6}`, whose survivor matrix is singular, so reconstruction fails
with `SingularMatrix` instead of returning the file byte-for-byte. -/
theorem C1_roundtrip_fails_on_singular_survivors :
    rs.shard_encoding Gf256.new (rs.build_vandermonde 4 3) [[1], [2], [3], [4]] =
      .ok [[4], [41], [52]] ∧
    (rs.shard_reconstruction Gf256.new 4 3
      [none, none, some [3], none, some [4], some [41], some [52]]).isOk = false := by
  have hv : rs.build_vandermonde 4 3 =
      [[1, 1, 1, 1], [1, 2, 4, 8], [1, 3, 5, 15]] := by
    simp only [rs.build_vandermonde, gf_new_eq]
    decide
  constructor
  · rw [gf_new_eq, hv]
    rfl
  · rw [gf_new_eq]
    have hrec : rs.shard_reconstruction gfT 4 3
        [none, none, some [3], none, some [4], some [41], some [52]] =
        .error "Failed to invert the reconstruction matrix: Matrix is singular and cannot be inverted" := by
      simp only [rs.shard_reconstruction, hv]
      rfl
    rw [hrec]
    rfl

/-- C9 witness: the theorem applied to a concrete successful reconstruction
(`k = m = 1`, the data slot present, the parity slot missing): the present
slot 0 is returned unchanged, for both variants. -/
theorem C9_witness :
    rs.shard_reconstruction Gf256.new 1 1 [some [3], none] = .ok [some [3], some [3]] ∧
    ([some [3], some [3]] : List (Option (List Nat))).getD 0 none = some [3] ∧
    (codec.Codec.new 1 1).reconstruct [] [some [3], none] = .ok [some [3], some [3]] := by
  have hv : rs.build_vandermonde 1 1 = [[1]] := by
    simp only [rs.build_vandermonde]
    decide
  have hrun : rs.shard_reconstruction gfT 1 1 [some [3], none] =
      .ok [some [3], some [3]] := by
    simp only [rs.shard_reconstruction, hv]
    rfl
  have hrun2 : (codec.Codec.new 1 1).reconstruct [] [some [3], none] =
      .ok [some [3], some [3]] := by
    simp only [codec.Codec.reconstruct, codec.Codec.get_or_compute_inverse_matrix,
      codec_new_n, codec_new_k, codec_new_gf, codec_new_matrix, gf_new_eq]
    rfl
  refine ⟨by rw [gf_new_eq]; exact hrun, ?_, hrun2⟩
  exact (C9_reconstruct_frame Gf256.new 1 1 (codec.Codec.new 1 1) [] [some [3], none]
    [some [3], some [3]] [some [3], some [3]]).1 (by rw [gf_new_eq]; exact hrun) 0 [3] rfl

end RSE
